import Mathlib

/-!
Verification development for the thumbnail generator in
create_thumbnail.py (automatic-osu-thumbnail-maker).

Shallow embedding conventions:
* Python floats (star ratings, accuracies, PP values) are modelled as
  rationals; the program only compares, subtracts and divides these
  values, so the rational model is exact for the decision logic under
  scrutiny.
* Python ints (mods enums, combos, hit counts) are modelled as Nat
  (or Int where the program uses -1 as a sentinel).
* Network and library effects (osu API responses, the rosu-pp engine,
  PIL image objects) are modelled as explicit inputs / oracle functions;
  a Python exception raised by a request is an Except.error input, a
  None-able value is an Option.
-/

namespace OsuThumb

/-- Dictionary MOD_STRING_TO_ENUM (source lines 138-170): two-letter mod
codes mapped to their bit-flag integer values. -/
def MOD_STRING_TO_ENUM (s : String) : Option Nat :=
  match s with
  | "NF" => some 1
  | "EZ" => some 2
  | "TD" => some 4
  | "HD" => some 8
  | "HR" => some 16
  | "SD" => some 32
  | "DT" => some 64
  | "RX" => some 128
  | "HT" => some 256
  | "NC" => some 512
  | "FL" => some 1024
  | "AU" => some 2048
  | "SO" => some 4096
  | "AP" => some 8192
  | "PF" => some 16384
  | "K4" => some 32768
  | "K5" => some 65536
  | "K6" => some 131072
  | "K7" => some 262144
  | "K8" => some 524288
  | "FI" => some 1048576
  | "RD" => some 2097152
  | "CN" => some 4194304
  | "TP" => some 8388608
  | "K9" => some 16777216
  | "KC" => some 33554432
  | "K1" => some 67108864
  | "K3" => some 134217728
  | "K2" => some 268435456
  | "V2" => some 536870912
  | "MR" => some 1073741824
  | _ => none

/-- First half of the ordered append sequence of get_mods_string
(source lines 186-211).  Each Python if appends at most one code; the
NC/DT and PF/SD pairs are if/elif, so at most one of each pair appears.
The source has no branch for Autoplay (bit 11, value 2048), so that bit
contributes no code. -/
def modsSlotsA (m : Nat) : List (Option String) :=
  [ if m.testBit 1 then some "EZ" else none,
    if m.testBit 0 then some "NF" else none,
    if m.testBit 8 then some "HT" else none,
    if m.testBit 9 then some "NC" else if m.testBit 6 then some "DT" else none,
    if m.testBit 3 then some "HD" else none,
    if m.testBit 4 then some "HR" else none,
    if m.testBit 14 then some "PF" else if m.testBit 5 then some "SD" else none,
    if m.testBit 10 then some "FL" else none,
    if m.testBit 7 then some "RX" else none,
    if m.testBit 13 then some "AP" else none,
    if m.testBit 12 then some "SO" else none,
    if m.testBit 2 then some "TD" else none,
    if m.testBit 22 then some "CN" else none,
    if m.testBit 29 then some "V2" else none ]

/-- Second half of the ordered append sequence of get_mods_string
(source lines 212-227). -/
def modsSlotsB (m : Nat) : List (Option String) :=
  [ if m.testBit 30 then some "MR" else none,
    if m.testBit 26 then some "K1" else none,
    if m.testBit 28 then some "K2" else none,
    if m.testBit 27 then some "K3" else none,
    if m.testBit 15 then some "K4" else none,
    if m.testBit 16 then some "K5" else none,
    if m.testBit 17 then some "K6" else none,
    if m.testBit 18 then some "K7" else none,
    if m.testBit 19 then some "K8" else none,
    if m.testBit 24 then some "K9" else none,
    if m.testBit 25 then some "KC" else none,
    if m.testBit 21 then some "RD" else none,
    if m.testBit 20 then some "FI" else none,
    if m.testBit 23 then some "TP" else none ]

/-- All code slots of get_mods_string, in source append order. -/
def modsSlots (m : Nat) : List (Option String) := modsSlotsA m ++ modsSlotsB m

/-- The mod_strings list built by get_mods_string (source lines 183-227). -/
def modsStringList (m : Nat) : List String := (modsSlots m).reduceOption

/-- Function get_mods_string (source lines 172-229): a mods enum integer
rendered as the concatenation of two-letter codes, NM for no mods or when
no branch fires.  The Python guard Mods(mods_enum) never raises for
values below 2^31 (every bit 0..30 is a defined flag), so on that domain
this is the complete behaviour. -/
def get_mods_string (mods_enum : Nat) : String :=
  if mods_enum = 0 then "NM"
  else
    let l := modsStringList mods_enum
    if l = [] then "NM" else String.join l

/-- Contribution of one element of the mod list inside the loop of
get_mods_enum_from_list (source lines 239-257): the NC/DT and PF/SD
special cases first, then the dictionary lookup; unknown strings
contribute nothing (the Python code logs a warning and skips them). -/
def modContribution (hasNC hasDT hasPF hasSD : Bool) (s : String) : Nat :=
  if s = "NC" && hasDT then 512
  else if s = "DT" && hasNC then 0
  else if s = "PF" && hasSD then 16384
  else if s = "SD" && hasPF then 0
  else (MOD_STRING_TO_ENUM s).getD 0

/-- The closing fix-up of get_mods_enum_from_list (source lines
260-263): ensure NC includes DT and PF includes SD. -/
def ncPfFixup (raw : Nat) : Nat :=
  let raw2 := if raw.testBit 9 then raw ||| 64 else raw
  if raw2.testBit 14 then raw2 ||| 32 else raw2

/-- Function get_mods_enum_from_list (source lines 231-265): OR-fold of
the per-element contributions, then the closing fix-up NC implies DT and
PF implies SD. -/
def get_mods_enum_from_list (mod_list : List String) : Nat :=
  let hasNC := mod_list.contains "NC"
  let hasDT := mod_list.contains "DT"
  let hasPF := mod_list.contains "PF"
  let hasSD := mod_list.contains "SD"
  ncPfFixup (mod_list.foldl
    (fun acc s => acc ||| modContribution hasNC hasDT hasPF hasSD s) 0)

example : get_mods_enum_from_list ["HD", "DT"] = 72 := rfl
example : get_mods_enum_from_list ["NC"] = 576 := rfl
example : get_mods_enum_from_list ["NC", "DT"] = 576 := rfl
example : get_mods_enum_from_list ["PF", "SD"] = 16416 := rfl
example : get_mods_enum_from_list ["XYZ", "HD"] = 8 := rfl
example : get_mods_string 0 = "NM" := rfl
example : get_mods_string 72 = "DTHD" := rfl
example : get_mods_string 2048 = "NM" := rfl
example : get_mods_string 524 = "NCHDTD" := rfl

/-! ## Difficulty resolution (source lines 1122-1178) -/

/-- One difficulty entry of the fetched beatmapset, with the fields the
program reads: version (display name), id, max_combo and
difficulty_rating.  Optional fields model dict keys that may be missing
or null in the API response. -/
structure Beatmap where
  version : String
  id : Nat
  max_combo : Option Nat
  difficulty_rating : Option ℚ
deriving DecidableEq

/-- Whitespace stripping at both ends, as with the Python strip()
method (modelled for the ASCII whitespace characters). -/
def pyStrip (cs : List Char) : List Char :=
  ((cs.dropWhile Char.isWhitespace).reverse.dropWhile
    Char.isWhitespace).reverse

/-- Name normalisation used on both sides of the comparison at source
line 1126: strip whitespace, lowercase.  Char.toLower models the Python
lower() for the ASCII range; every input used to settle the claims is
ASCII. -/
def normName (s : String) : String :=
  String.mk ((pyStrip s.data).map Char.toLower)

/-- Accumulator step of the closest-star scan (source lines 1151-1157):
difficulties whose difficulty_rating is missing or zero are skipped
(Python truthiness of api_stars), and the running minimum is replaced
only on a strictly smaller absolute difference, so the first of equally
distant difficulties wins. -/
def closestStep (base : ℚ) (acc : Option (Beatmap × ℚ)) (b : Beatmap) :
    Option (Beatmap × ℚ) :=
  match b.difficulty_rating with
  | none => acc
  | some r =>
    if r = 0 then acc
    else
      let d := |r - base|
      match acc with
      | none => some (b, d)
      | some (b0, dmin) => if d < dmin then some (b, d) else some (b0, dmin)

/-- Difficulty resolution of create_thumbnail (source lines 1122-1178):
first the exact normalised name match over the difficulty list (first
hit wins, line 1126); if none, and only when the star rating parsed from
the render description is strictly positive (line 1147), the difficulty
with the nearest nonzero star rating, accepted only when the minimal
absolute difference is strictly below 0.1 (line 1159). -/
def resolveDifficulty (beatmaps : List Beatmap) (target : String)
    (base_stars_from_desc : ℚ) : Option Beatmap :=
  match beatmaps.find? (fun b => normName b.version == normName target) with
  | some b => some b
  | none =>
    if base_stars_from_desc > 0 then
      match beatmaps.foldl (closestStep base_stars_from_desc) none with
      | some (b, dmin) => if dmin < 1/10 then some b else none
      | none => none
    else none

/-! ## Theoretical PP and the true-FC determination
(source lines 706-781 and 1236-1291) -/

/-- Oracle for the rosu-pp-py engine: byCounts models
Performance(mods, misses, n300, n100, n50).calculate(beatmap) and byAcc
models Performance(mods, misses, acc).calculate(beatmap), both applied
to the parsed .osu content; a None result models any exception raised
inside the library (caught at source lines 770-781 and turned into
None). -/
structure RosuEngine where
  byCounts : String → Nat → Nat → Nat → Nat → Nat → Option ℚ
  byAcc : String → Nat → ℚ → Nat → Option ℚ

/-- Function get_theoretical_pp (source lines 706-781): None when the
rosu-pp-py library is unavailable (lines 716-718), when the .osu content
is missing or empty (Python falsiness, lines 720-722), or when neither
all three hit counts nor an accuracy is provided (lines 752-754); the
accuracy path clamps to [0, 100] (line 749); hit counts take precedence
over accuracy (lines 742-751). -/
def get_theoretical_pp (rosuAvailable : Bool) (eng : RosuEngine)
    (osu_file_content : Option String) (mods_enum : Nat)
    (accuracy : Option ℚ) (count300 count100 count50 : Option Nat)
    (miss_count : Nat) : Option ℚ :=
  if !rosuAvailable then none
  else
    match osu_file_content with
    | none => none
    | some c =>
      if c = "" then none
      else
        match count300, count100, count50 with
        | some a, some b, some d => eng.byCounts c mods_enum a b d miss_count
        | _, _, _ =>
          match accuracy with
          | some acc => eng.byAcc c mods_enum (max 0 (min 100 acc)) miss_count
          | none => none

/-- The PP comparison of the FC check (source lines 1263-1271): at most
5 percent relative difference, measured against the theoretical value;
when the theoretical value is at most 1e-6 the guard against division by
(near) zero requires the absolute difference to be at most 1e-6. -/
def ppToleranceCheck (fetched theoretical : ℚ) : Bool :=
  if theoretical > 1/1000000 then
    decide (|fetched - theoretical| / theoretical ≤ 1/20)
  else decide (|fetched - theoretical| ≤ 1/1000000)

/-- The true-FC determination (source lines 1236-1291): zero misses,
then the combo check (score combo at least the map max combo, when the
latter is known), then the theoretical-PP comparison computed with the
exact hit counts and zero misses; misses above zero or the unknown
sentinel -1 give false, as does a failed or unavailable PP
calculation. -/
def determineTrueFC (miss_count : Int) (score_max_combo : Nat)
    (beatmap_max_combo : Option Nat) (fetched_pp : ℚ)
    (rosuAvailable : Bool) (eng : RosuEngine)
    (osu_file_content : Option String) (final_mods_enum : Nat)
    (count_300 count_100 count_50 : Nat) : Bool :=
  if miss_count = 0 then
    let comboOk := match beatmap_max_combo with
      | some m => decide (score_max_combo ≥ m)
      | none => false
    if comboOk then true
    else
      match get_theoretical_pp rosuAvailable eng osu_file_content
          final_mods_enum none (some count_300) (some count_100)
          (some count_50) 0 with
      | some t => ppToleranceCheck fetched_pp t
      | none => false
  else false

/-! ## Mod override and the score phase of create_thumbnail
(source lines 1110-1345) -/

/-- The mod override decision (source lines 1217-1234): a non-empty API
mods list overrides both the display string and the enum; otherwise the
previous values are kept when the previous display string is not NM;
otherwise both are reset to NM / 0. -/
def modOverride (mods_str : String) (final_mods_enum : Nat)
    (api_mods_list : List String) : String × Nat :=
  if api_mods_list ≠ [] then
    (String.join api_mods_list, get_mods_enum_from_list api_mods_list)
  else if mods_str ≠ "NM" then (mods_str, final_mods_enum)
  else ("NM", 0)

/-- The score fields read from the API score object (source lines
1184-1218), after the .get defaults have been applied: pp and rank may
be null, count_miss defaults to the sentinel -1, the hit counts and the
score max combo default to 0, the mods list defaults to empty. -/
structure ScoreInfo where
  pp : Option ℚ
  rank : Option String
  count_miss : Int
  count_300 : Nat
  count_100 : Nat
  count_50 : Nat
  max_combo : Nat
  mods : List String

/-- Inputs of the score phase of create_thumbnail.  resolved is the
outcome of difficulty resolution; scoreResult models the score request
(error is a raised request exception, caught at line 1331; ok none is a
response without a score object, line 1298); attrStars maps the mods
enum sent in the attributes request to the star rating it yields, none
modelling a failed request or a missing field (lines 1305-1323). -/
structure PhaseInput where
  resolved : Option Beatmap
  scoreResult : Except Unit (Option ScoreInfo)
  attrStars : Nat → Option ℚ
  rosuAvailable : Bool
  eng : RosuEngine
  osu_file_content : Option String
  ordr_mods_enum : Nat
  stars0 : ℚ

/-- Output values of the score phase that feed the drawing code:
fetched_pp, rank, is_true_fc, mods_str, final_mods_enum, stars. -/
structure ScorePhaseResult where
  pp : ℚ
  rank : String
  is_true_fc : Bool
  mods_str : String
  final_mods_enum : Nat
  stars : ℚ

/-- The score phase of create_thumbnail (source lines 1110-1345),
starting from the ORDR-derived fallbacks mods_str =
get_mods_string(ordr_mods_enum), final_mods_enum = ordr_mods_enum,
fetched_pp = 0, rank = D, is_true_fc = false.  When resolution fails or
the resolved id is falsy (line 1180) the fallbacks are kept (lines
1325-1329); a raised score request keeps them too (lines 1331-1337); a
response without a score object resets pp, rank and the FC flag but
keeps the ORDR mods (lines 1298-1303); a score object supplies pp, rank
(empty or missing falls back to D), the mod override, and the true-FC
determination; the attributes request (lines 1305-1323) then updates the
star rating for the final mods enum when it succeeds.  The star value
is first updated from the matched difficulty when the description stars
were zero (lines 1131-1140 and 1164-1173). -/
def scorePhase (inp : PhaseInput) : ScorePhaseResult :=
  let mods_str := get_mods_string inp.ordr_mods_enum
  let enum0 := inp.ordr_mods_enum
  match inp.resolved with
  | none => ⟨0, "D", false, mods_str, enum0, inp.stars0⟩
  | some bm =>
    let stars1 :=
      if inp.stars0 = 0 then
        match bm.difficulty_rating with
        | some r => if r = 0 then inp.stars0 else r
        | none => inp.stars0
      else inp.stars0
    if bm.id = 0 then ⟨0, "D", false, mods_str, enum0, stars1⟩
    else
      match inp.scoreResult with
      | .error _ => ⟨0, "D", false, mods_str, enum0, stars1⟩
      | .ok none =>
        let stars2 := (inp.attrStars enum0).getD stars1
        ⟨0, "D", false, mods_str, enum0, stars2⟩
      | .ok (some s) =>
        let pp := s.pp.getD 0
        let rank := match s.rank with
          | some r => if r = "" then "D" else r
          | none => "D"
        let over := modOverride mods_str enum0 s.mods
        let fc := determineTrueFC s.count_miss s.max_combo bm.max_combo pp
          inp.rosuAvailable inp.eng inp.osu_file_content over.2
          s.count_300 s.count_100 s.count_50
        let stars2 := (inp.attrStars over.2).getD stars1
        ⟨pp, rank, fc, over.1, over.2, stars2⟩

/-! ## Background acquisition (source lines 874-906) -/

/-- The covers object of the beatmapset response. -/
structure Covers where
  cover2x : Option String
  cover : Option String

/-- Python or on two optional strings (source line 889): the first value
when it is truthy (present and non-empty), else the second. -/
def pyOrStr : Option String → Option String → Option String
  | some s, b => if s = "" then b else some s
  | none, b => b

/-- The cover URL the fallback uses (source lines 886-890): defined only
when beatmapset data is present and the selected URL is truthy. -/
def coverUrl (beatmapset_data : Option Covers) : Option String :=
  match beatmapset_data with
  | none => none
  | some covers =>
    match pyOrStr covers.cover2x covers.cover with
    | some url => if url = "" then none else some url
    | none => none

/-- Background acquisition (source lines 874-906): the mirror result is
used when present; otherwise the official API cover is downloaded when
beatmapset data provides a URL (fetchCover none models a failed download
or decode, lines 899-902); when no image was obtained a ValueError with
message Could not obtain background image is raised (line 906). -/
def obtainBackground {α : Type} (mirror_bg : Option α)
    (beatmapset_data : Option Covers) (fetchCover : String → Option α) :
    Except String α :=
  let bg := match mirror_bg with
    | some i => some i
    | none =>
      match coverUrl beatmapset_data with
      | some url => fetchCover url
      | none => none
  match bg with
  | some i => Except.ok i
  | none => Except.error "Could not obtain background image"

/-- The save step (source lines 1562-1587) runs only after a background
was obtained; an error raised earlier propagates and no file name is
produced. -/
def savePipeline {α : Type} (bg : Except String α) (code : String) :
    Except String String :=
  match bg with
  | Except.error e => Except.error e
  | Except.ok _ => Except.ok ("thumbnail_" ++ code ++ ".jpg")

/-! ## Canvas geometry (source lines 908-939 and 993-1000, 1469, 1513) -/

def target_width : Nat := 1920

def target_height : Nat := 1080

def avatar_size : Nat := 450

/-- Avatar position (source lines 996-997): integer floor division. -/
def avatar_pos_x : Nat := (target_width - avatar_size) / 2

def avatar_pos_y : Nat := (target_height - avatar_size) / 2

def side_spacing : Nat := 30

/-- Vertical reference of the side text blocks (source line 1000):
halfway between the top and the centre of the avatar. -/
def side_text_vertical_center_y : ℚ :=
  (avatar_pos_y : ℚ) + (avatar_size : ℚ) / 4

/-- Right edge of the left (accuracy/mods/rank) text block (source line
1469). -/
def left_x_end : Nat := avatar_pos_x - side_spacing

/-- Left edge of the right (PP/stars) text block (source lines 1513 and
1524). -/
def pp_x : Nat := avatar_pos_x + avatar_size + side_spacing

/-- Outcome of the background scale-and-crop computation (source lines
914-936): the resized dimensions and the crop offsets. -/
structure BgTransform where
  new_width : Nat
  new_height : Nat
  x_crop : Nat
  y_crop : Nat
deriving DecidableEq

/-- The scale-to-fill computation (source lines 916-936).  When the
background is wider than 16:9 the height is scaled to 1080 and the width
is cropped around the centre; otherwise the width is scaled to 1920 and
the height is cropped.  Python float division and int() truncation are
modelled with exact rationals and floor; the resized dimension on the
non-binding axis is the floor of size times scale. -/
def scaleAndCrop (w h : Nat) : BgTransform :=
  if (w : ℚ) / h > (target_width : ℚ) / target_height then
    let nw := (Int.floor ((w : ℚ) * ((target_height : ℚ) / h))).toNat
    ⟨nw, target_height, (nw - target_width) / 2, 0⟩
  else
    let nh := (Int.floor ((h : ℚ) * ((target_width : ℚ) / w))).toNat
    ⟨target_width, nh, 0, (nh - target_height) / 2⟩

/-- PIL Image.crop((left, upper, right, lower)) always returns an image
of exactly the requested box size (right - left, lower - upper). -/
def cropSize (left upper right lower : Nat) : Nat × Nat :=
  (right - left, lower - upper)

/-- Size of the thumbnail base produced from a background of size w x h
(source lines 919-939): the crop box is (x_crop, y_crop,
x_crop + 1920, y_crop + 1080). -/
def thumbBaseSize (w h : Nat) : Nat × Nat :=
  let t := scaleAndCrop w h
  cropSize t.x_crop t.y_crop (t.x_crop + target_width)
    (t.y_crop + target_height)

/-! ## ORDR URL code extraction (source lines 519-529, 785-799)

The regular expression
(?:link.issou.best/|ordr.issou.best/(?:renders?|watch)/)(w+)
(with the dots escaped and w+ the word-character class) is modelled by
an explicit leftmost scan.  The alternation renders? accepts both
renders/ and render/; at any given position at most one of the four
literal prefixes can match, so trying them in regex alternation order is
faithful backtracking.  isWordChar models the word class for ASCII
text; every input used to settle the claims is ASCII. -/

def isWordChar (c : Char) : Bool := c.isAlphanum || c = '_'

/-- The four literal prefixes the regex can consume before the capture
group, in alternation order. -/
def ordrPrefixes : List String :=
  ["link.issou.best/", "ordr.issou.best/renders/",
   "ordr.issou.best/render/", "ordr.issou.best/watch/"]

/-- Match one alternative at the current position: the literal prefix,
then a maximal non-empty run of word characters (the capture group). -/
def matchPrefixAt (p : String) (cs : List Char) : Option String :=
  if p.data.isPrefixOf cs then
    let w := (cs.drop p.data.length).takeWhile isWordChar
    if w = [] then none else some (String.mk w)
  else none

/-- Try the given alternatives at the current position in order. -/
def matchAt (ps : List String) (cs : List Char) : Option String :=
  ps.findSome? (fun p => matchPrefixAt p cs)

/-- Leftmost search: the first position at which an alternative matches
wins, as with re.search. -/
def searchFrom (ps : List String) : List Char → Option String
  | [] => none
  | c :: rest =>
    match matchAt ps (c :: rest) with
    | some r => some r
    | none => searchFrom ps rest

/-- Function extract_ordr_code (source lines 519-529): the captured code
on a match, a ValueError with the unrecognised-format message
otherwise. -/
def extract_ordr_code (ordr_url : String) : Except String String :=
  match searchFrom ordrPrefixes ordr_url.data with
  | some code => Except.ok code
  | none =>
    Except.error ("Invalid or unrecognized ORDR URL format: " ++ ordr_url)

/-- Opening of create_thumbnail (source lines 791-799): the empty-URL
guard, then extract_ordr_code, and only then the first network call
fetch_ordr_metadata on the extracted code.  The metadata fetch is an
oracle; when extraction raises it is never consulted. -/
def createThumbnailStart {μ : Type} (ordr_url : String)
    (fetchMeta : String → μ) : Except String μ :=
  if ordr_url = "" then Except.error "ORDR URL is required"
  else
    match extract_ordr_code ordr_url with
    | Except.error e => Except.error e
    | Except.ok code => Except.ok (fetchMeta code)

/-- Occurrence of one of the given patterns somewhere in the text: a
prefix from the list followed immediately by at least one word
character.  This is the spec-level reading of the URL containing
pattern/<code>. -/
def HasOrdrPattern (ps : List String) (url : String) : Prop :=
  ∃ pre p c post, p ∈ ps ∧ c ≠ [] ∧ (∀ ch ∈ c, isWordChar ch = true) ∧
    url.data = pre ++ p.data ++ c ++ post

/-- The three patterns the specification lists. -/
def claimedPrefixes : List String :=
  ["link.issou.best/", "ordr.issou.best/watch/", "ordr.issou.best/renders/"]

example : extract_ordr_code "https://link.issou.best/ab_12?x=1" =
    Except.ok "ab_12" := rfl
example : extract_ordr_code "https://ordr.issou.best/watch/xyz" =
    Except.ok "xyz" := rfl
example : extract_ordr_code "https://ordr.issou.best/renders/q1" =
    Except.ok "q1" := rfl
example : extract_ordr_code "https://ordr.issou.best/render/q1" =
    Except.ok "q1" := rfl
example : extract_ordr_code "https://example.com/abc" =
    Except.error
      "Invalid or unrecognized ORDR URL format: https://example.com/abc" := rfl

/-! ## Concrete instances used by witnesses and counterexamples -/

/-- An engine that always fails; used only to instantiate oracles. -/
def unitEngine : RosuEngine :=
  ⟨fun _ _ _ _ _ _ => none, fun _ _ _ _ => none⟩

def bmSample : Beatmap := ⟨"Insane", 42, some 800, some 5⟩

def bmNoCombo : Beatmap := ⟨"Extra", 9, none, some 6⟩

/-- A score with mods reported by the API. -/
def scoreWithMods : ScoreInfo :=
  ⟨some 100, some "S", 0, 500, 10, 2, 700, ["HD", "DT"]⟩

/-- A score whose API mods list is empty. -/
def scoreNM : ScoreInfo := ⟨some 100, some "S", 0, 500, 10, 2, 700, []⟩

def inputNoResolution : PhaseInput :=
  ⟨none, Except.ok none, fun _ => none, true, unitEngine, none, 64, 5⟩

def inputWithMods : PhaseInput :=
  ⟨some bmSample, Except.ok (some scoreWithMods), fun _ => none, false,
   unitEngine, none, 0, 5⟩

/-- ORDR reports mods enum 2048 (Autoplay), whose display string is NM
because get_mods_string has no branch for that bit; the API score has an
empty mods list. -/
def inputAutoplay : PhaseInput :=
  ⟨some bmSample, Except.ok (some scoreNM), fun _ => none, false,
   unitEngine, none, 2048, 5⟩

/-- A zero-miss score on a map whose max combo is unknown, with the
rosu-pp engine unavailable. -/
def inputNoRosu : PhaseInput :=
  ⟨some bmNoCombo, Except.ok (some scoreNM), fun _ => none, false,
   unitEngine, some "osu file content", 0, 5⟩

/-! ## Claim C5 -/

/-- C5: when difficulty resolution fails entirely, create_thumbnail does
not raise (scorePhase is a total function) and proceeds with PP 0, rank
D, the full-combo badge withheld, and the mods string, mods enum and
star value from the earlier ORDR-derived fallback sources. -/
theorem resolution_failure_defaults (inp : PhaseInput)
    (h : inp.resolved = none) :
    scorePhase inp =
      ⟨0, "D", false, get_mods_string inp.ordr_mods_enum,
        inp.ordr_mods_enum, inp.stars0⟩ := by
  unfold scorePhase
  rw [h]

/-- Witness for C5 at a concrete input. -/
theorem resolution_failure_defaults_witness :
    scorePhase inputNoResolution =
      ⟨0, "D", false, get_mods_string 64, 64, 5⟩ :=
  resolution_failure_defaults inputNoResolution rfl

/-! ## Claim C1 -/

/-- C1 (amended): with a resolved beatmap and an API score present, a
non-empty API mods list overrides both the displayed mods string and the
enum used for the subsequent star and PP calculations; with an empty API
mods list the ORDR-derived values are kept exactly when the ORDR-derived
mods STRING is not NM; when that string is NM (which happens for the
zero enum but also for non-zero enums whose bits produce no display
code, such as Autoplay) both the string and the enum are reset to NM and
0. -/
theorem mods_override_precedence (inp : PhaseInput) (bm : Beatmap)
    (s : ScoreInfo) (hres : inp.resolved = some bm) (hid : bm.id ≠ 0)
    (hscore : inp.scoreResult = Except.ok (some s)) :
    (s.mods ≠ [] →
      (scorePhase inp).mods_str = String.join s.mods ∧
      (scorePhase inp).final_mods_enum = get_mods_enum_from_list s.mods) ∧
    (s.mods = [] → get_mods_string inp.ordr_mods_enum ≠ "NM" →
      (scorePhase inp).mods_str = get_mods_string inp.ordr_mods_enum ∧
      (scorePhase inp).final_mods_enum = inp.ordr_mods_enum) ∧
    (s.mods = [] → get_mods_string inp.ordr_mods_enum = "NM" →
      (scorePhase inp).mods_str = "NM" ∧
      (scorePhase inp).final_mods_enum = 0) := by
  unfold scorePhase
  rw [hres, hscore]
  simp only [hid, if_neg]
  refine ⟨fun hm => ?_, fun hm hnm => ?_, fun hm hnm => ?_⟩
  · simp [modOverride, hm]
  · simp [modOverride, hm, hnm]
  · simp [modOverride, hm, hnm]

/-- Counterexample to C1 as stated: the ORDR enum 2048 is non-empty
(not NM as an integer), the API score has an empty mods list, yet the
enum is reset to 0 rather than kept, because the branch condition at
source line 1227 tests the derived STRING, which is NM for 2048. -/
theorem mods_override_counterexample :
    inputAutoplay.ordr_mods_enum = 2048 ∧
    inputAutoplay.scoreResult = Except.ok (some scoreNM) ∧
    scoreNM.mods = [] ∧
    (scorePhase inputAutoplay).final_mods_enum = 0 ∧
    (scorePhase inputAutoplay).final_mods_enum ≠
      inputAutoplay.ordr_mods_enum := by
  refine ⟨rfl, rfl, rfl, rfl, ?_⟩
  intro h
  exact absurd (rfl.trans h.symm) (by decide)

/-- Witness for the amended C1 at a concrete input with API mods. -/
theorem mods_override_precedence_witness :
    (scorePhase inputWithMods).mods_str = String.join ["HD", "DT"] ∧
    (scorePhase inputWithMods).final_mods_enum =
      get_mods_enum_from_list ["HD", "DT"] :=
  (mods_override_precedence inputWithMods bmSample scoreWithMods rfl
    (by decide) rfl).1 (by decide)

/-! ## Claim C6 -/

/-- C6: when the rosu-pp-py engine is unavailable get_theoretical_pp
returns none for every input (rather than raising: it is a total
function), and consequently a zero-miss play whose combo check is
inconclusive (map max combo unknown, or score combo below it) is
determined not to be a true FC; the score phase still completes and
merely withholds the badge. -/
theorem rosu_unavailable_no_fc :
    (∀ (eng : RosuEngine) (content : Option String) (mods_enum : Nat)
      (accuracy : Option ℚ) (c300 c100 c50 : Option Nat) (miss : Nat),
      get_theoretical_pp false eng content mods_enum accuracy c300 c100
        c50 miss = none) ∧
    (∀ (inp : PhaseInput) (bm : Beatmap) (s : ScoreInfo),
      inp.rosuAvailable = false → inp.resolved = some bm → bm.id ≠ 0 →
      inp.scoreResult = Except.ok (some s) → s.count_miss = 0 →
      (∀ m, bm.max_combo = some m → s.max_combo < m) →
      (scorePhase inp).is_true_fc = false) := by
  constructor
  · intro eng content mods_enum accuracy c300 c100 c50 miss
    simp [get_theoretical_pp]
  · intro inp bm s hrosu hres hid hscore hmiss hcombo
    unfold scorePhase
    rw [hres, hscore]
    simp only [hid, if_neg]
    unfold determineTrueFC
    rw [hmiss, hrosu]
    simp only [if_pos rfl]
    have hpp : ∀ content mods c3 c1 c5,
        get_theoretical_pp false inp.eng content mods none (some c3)
          (some c1) (some c5) 0 = none := by
      intro content mods c3 c1 c5
      simp [get_theoretical_pp]
    cases hbm : bm.max_combo with
    | none => simp [hpp]
    | some m =>
      have := hcombo m hbm
      simp [hpp, Nat.not_le.mpr this]

/-- Witness for C6 at a concrete input. -/
theorem rosu_unavailable_no_fc_witness :
    (scorePhase inputNoRosu).is_true_fc = false :=
  rosu_unavailable_no_fc.2 inputNoRosu bmNoCombo scoreNM rfl rfl
    (by decide) rfl rfl (fun m hm => nomatch hm)

/-! ## Claim C8 -/

/-- C8: the mirror image is used whenever the mirror yielded one; only
when it did not does the fallback consult the beatmapset covers, using
the selected cover URL when one exists; when neither source yields an
image the result is the ValueError message Could not obtain background
image, and the save step then produces no file name. -/
theorem background_mirror_first {α : Type} (mirror_bg : Option α)
    (bs : Option Covers) (fetch : String → Option α) :
    (∀ i, mirror_bg = some i →
      obtainBackground mirror_bg bs fetch = Except.ok i) ∧
    (mirror_bg = none → ∀ url, coverUrl bs = some url →
      obtainBackground mirror_bg bs fetch =
        match fetch url with
        | some i => Except.ok i
        | none => Except.error "Could not obtain background image") ∧
    (mirror_bg = none → coverUrl bs = none →
      obtainBackground mirror_bg bs fetch =
        Except.error "Could not obtain background image") ∧
    (∀ e code, obtainBackground mirror_bg bs fetch = Except.error e →
      savePipeline (obtainBackground mirror_bg bs fetch) code =
        Except.error e) := by
  refine ⟨fun i h => ?_, fun h url hc => ?_, fun h hc => ?_,
    fun e code h => ?_⟩
  · rw [h]; rfl
  · rw [h]; unfold obtainBackground; rw [hc]
  · rw [h]; unfold obtainBackground; rw [hc]
  · rw [h]; rfl

/-- Witness for C8 at concrete inputs: the mirror result wins even when
the covers would also provide an image. -/
theorem background_mirror_first_witness :
    obtainBackground (some 7) (some ⟨some "u", none⟩)
      (fun _ => some (5 : Nat)) = Except.ok 7 :=
  (background_mirror_first (some 7) (some ⟨some "u", none⟩)
    (fun _ => some 5)).1 7 rfl

/-! ## Claim C3 -/

/-- Spec-side reading of the PP check: the theoretical full-combo PP was
computed and lies within the 5 percent relative tolerance of the
achieved PP, measured against the theoretical value (with the absolute
1e-6 guard when the theoretical value is essentially zero). -/
def PPMatchSpec (fetched : ℚ) (theoretical : Option ℚ) : Prop :=
  ∃ t, theoretical = some t ∧ ppToleranceCheck fetched t = true

/-- C3: the true-FC badge is granted if and only if the recorded miss
count is zero AND (the achieved max combo reaches the known map max
combo OR the recomputed theoretical full-combo PP at the same hit counts
and mods passes the 5 percent relative tolerance against the achieved
PP); misses above zero, the unknown sentinel, an unknown map combo with
a failed PP computation, all withhold the badge. -/
theorem true_fc_characterisation (miss_count : Int)
    (score_max_combo : Nat) (beatmap_max_combo : Option Nat)
    (fetched_pp : ℚ) (rosuAvailable : Bool) (eng : RosuEngine)
    (osu_file_content : Option String) (final_mods_enum : Nat)
    (count_300 count_100 count_50 : Nat) :
    determineTrueFC miss_count score_max_combo beatmap_max_combo
        fetched_pp rosuAvailable eng osu_file_content final_mods_enum
        count_300 count_100 count_50 = true ↔
      (miss_count = 0 ∧
        ((∃ m, beatmap_max_combo = some m ∧ score_max_combo ≥ m) ∨
          PPMatchSpec fetched_pp
            (get_theoretical_pp rosuAvailable eng osu_file_content
              final_mods_enum none (some count_300) (some count_100)
              (some count_50) 0))) := by
  unfold determineTrueFC
  by_cases hm : miss_count = 0
  · simp only [hm, if_pos rfl, true_and]
    cases hbm : beatmap_max_combo with
    | none =>
      simp only [PPMatchSpec]
      cases hpp : get_theoretical_pp rosuAvailable eng osu_file_content
          final_mods_enum none (some count_300) (some count_100)
          (some count_50) 0 with
      | none => simp
      | some t => simp
    | some m =>
      by_cases hge : score_max_combo ≥ m
      · rw [if_pos (decide_eq_true hge)]
        constructor
        · intro _; exact Or.inl ⟨m, rfl, hge⟩
        · intro _; rfl
      · rw [if_neg (fun h => hge (of_decide_eq_true h))]
        simp only [PPMatchSpec]
        cases hpp : get_theoretical_pp rosuAvailable eng osu_file_content
            final_mods_enum none (some count_300) (some count_100)
            (some count_50) 0 with
        | none =>
          constructor
          · intro h; exact absurd h (by simp)
          · rintro (⟨m0, hm0, hge0⟩ | ⟨t, ht, _⟩)
            · obtain rfl : m = m0 := Option.some.inj hm0
              exact absurd hge0 hge
            · exact Option.noConfusion ht
        | some t =>
          constructor
          · intro h; exact Or.inr ⟨t, rfl, h⟩
          · rintro (⟨m0, hm0, hge0⟩ | ⟨t2, ht2, htol⟩)
            · obtain rfl : m = m0 := Option.some.inj hm0
              exact absurd hge0 hge
            · obtain rfl : t = t2 := Option.some.inj ht2
              exact htol
  · simp only [if_neg hm]
    simp [hm]

/-! ## Claim C4 -/

/-- Bit facts about the fix-up step: whatever the raw fold produced, the
result has the DT bit whenever it has the NC bit and the SD bit whenever
it has the PF bit. -/
lemma ncPfFixup_bits (raw : Nat) :
    ((ncPfFixup raw).testBit 9 = true → (ncPfFixup raw).testBit 6 = true) ∧
    ((ncPfFixup raw).testBit 14 = true →
      (ncPfFixup raw).testBit 5 = true) := by
  have a64_6 : Nat.testBit 64 6 = true := rfl
  have a64_14 : Nat.testBit 64 14 = false := rfl
  have a32_5 : Nat.testBit 32 5 = true := rfl
  have a32_9 : Nat.testBit 32 9 = false := rfl
  have a32_6 : Nat.testBit 32 6 = false := rfl
  unfold ncPfFixup
  by_cases h9 : raw.testBit 9 = true
  · rw [if_pos h9]
    by_cases h14 : raw.testBit 14 = true
    · have h14b : (raw ||| 64).testBit 14 = true := by
        simp [Nat.testBit_or, h14]
      rw [if_pos h14b]
      refine ⟨fun _ => ?_, fun _ => ?_⟩
      · simp [Nat.testBit_or, a64_6]
      · simp [Nat.testBit_or, a32_5]
    · have h14f : raw.testBit 14 = false := by
        revert h14; cases raw.testBit 14 <;> simp
      have h14b : ¬((raw ||| 64).testBit 14 = true) := by
        simp [Nat.testBit_or, h14f, a64_14]
      rw [if_neg h14b]
      refine ⟨fun _ => ?_, fun hc => ?_⟩
      · simp [Nat.testBit_or, a64_6]
      · exact absurd hc h14b
  · have h9f : raw.testBit 9 = false := by
      revert h9; cases raw.testBit 9 <;> simp
    rw [if_neg h9]
    by_cases h14 : raw.testBit 14 = true
    · rw [if_pos h14]
      refine ⟨fun hc => ?_, fun _ => ?_⟩
      · rw [Nat.testBit_or, h9f, a32_9] at hc
        exact absurd hc (by simp)
      · simp [Nat.testBit_or, a32_5]
    · rw [if_neg h14]
      refine ⟨fun hc => ?_, fun hc => ?_⟩
      · exact absurd hc (by simp [h9f])
      · exact absurd hc h14

/-- Equation helper for membership in the slot list. -/
lemma some_eq_ite_opt_iff {c : Prop} [Decidable c] {a b : String}
    {e : Option String} :
    (some b = (if c then some a else e)) ↔
      ((c ∧ b = a) ∨ (¬c ∧ some b = e)) := by
  split <;> simp_all

lemma mem_modsStringList_NC (m : Nat) (h9 : m.testBit 9 = true) :
    "NC" ∈ modsStringList m := by
  simp [modsStringList, List.reduceOption_mem_iff, modsSlots, modsSlotsA,
    modsSlotsB, h9]

lemma not_mem_modsStringList_DT (m : Nat) (h9 : m.testBit 9 = true) :
    "DT" ∉ modsStringList m := by
  intro hmem
  simp [modsStringList, List.reduceOption_mem_iff, modsSlots, modsSlotsA,
    modsSlotsB, some_eq_ite_opt_iff, h9] at hmem

lemma mem_modsStringList_PF (m : Nat) (h14 : m.testBit 14 = true) :
    "PF" ∈ modsStringList m := by
  simp [modsStringList, List.reduceOption_mem_iff, modsSlots, modsSlotsA,
    modsSlotsB, h14]

lemma not_mem_modsStringList_SD (m : Nat) (h14 : m.testBit 14 = true) :
    "SD" ∉ modsStringList m := by
  intro hmem
  simp [modsStringList, List.reduceOption_mem_iff, modsSlots, modsSlotsA,
    modsSlotsB, some_eq_ite_opt_iff, h14] at hmem

/-- Representation of get_mods_string as a join when some code fires. -/
lemma get_mods_string_eq_join (m : Nat) (hne : m ≠ 0)
    (hl : modsStringList m ≠ []) :
    get_mods_string m = String.join (modsStringList m) := by
  simp only [get_mods_string]
  rw [if_neg hne, if_neg hl]

/-- C4: NC implies DT and PF implies SD in both conversion directions.
For every list of mod strings, the enum returned by
get_mods_enum_from_list has the DoubleTime bit (6) whenever it has the
Nightcore bit (9), and the SuddenDeath bit (5) whenever it has the
Perfect bit (14).  For every enum below 2^31 (the domain on which the
Python Mods conversion never raises), when the Nightcore bit is set the
string built by get_mods_string contains the code NC and not the code
DT, and when the Perfect bit is set it contains PF and not SD; the
rendered string is the concatenation of the code list. -/
theorem nc_implies_dt_pf_implies_sd :
    (∀ (mod_list : List String),
      ((get_mods_enum_from_list mod_list).testBit 9 = true →
        (get_mods_enum_from_list mod_list).testBit 6 = true) ∧
      ((get_mods_enum_from_list mod_list).testBit 14 = true →
        (get_mods_enum_from_list mod_list).testBit 5 = true)) ∧
    (∀ m : Nat, m < 2 ^ 31 →
      (m.testBit 9 = true →
        "NC" ∈ modsStringList m ∧ "DT" ∉ modsStringList m ∧
        get_mods_string m = String.join (modsStringList m)) ∧
      (m.testBit 14 = true →
        "PF" ∈ modsStringList m ∧ "SD" ∉ modsStringList m ∧
        get_mods_string m = String.join (modsStringList m))) := by
  constructor
  · intro mod_list
    simp only [get_mods_enum_from_list]
    exact ncPfFixup_bits _
  · intro m _
    constructor
    · intro h9
      have hne : m ≠ 0 := by
        intro h0; rw [h0, Nat.zero_testBit] at h9; exact absurd h9 (by simp)
      refine ⟨mem_modsStringList_NC m h9, not_mem_modsStringList_DT m h9,
        get_mods_string_eq_join m hne
          (List.ne_nil_of_mem (mem_modsStringList_NC m h9))⟩
    · intro h14
      have hne : m ≠ 0 := by
        intro h0; rw [h0, Nat.zero_testBit] at h14; exact absurd h14 (by simp)
      refine ⟨mem_modsStringList_PF m h14, not_mem_modsStringList_SD m h14,
        get_mods_string_eq_join m hne
          (List.ne_nil_of_mem (mem_modsStringList_PF m h14))⟩

/-- Witness for C4 at concrete inputs. -/
theorem nc_implies_dt_pf_implies_sd_witness :
    (get_mods_enum_from_list ["NC"]).testBit 6 = true ∧
    ("NC" ∈ modsStringList 576 ∧ "DT" ∉ modsStringList 576 ∧
      get_mods_string 576 = String.join (modsStringList 576)) :=
  ⟨(nc_implies_dt_pf_implies_sd.1 ["NC"]).1 rfl,
   (nc_implies_dt_pf_implies_sd.2 576 (by norm_num)).1 rfl⟩

/-! ## Claim C9 -/

/-- Bits of an OR-fold: a bit of the fold is set exactly when it is set
in the accumulator or in the contribution of some list element. -/
lemma foldl_or_testBit (f : String → Nat) (l : List String) :
    ∀ (acc : Nat) (i : Nat),
      (l.foldl (fun a s => a ||| f s) acc).testBit i =
        (acc.testBit i || l.any (fun s => (f s).testBit i)) := by
  induction l with
  | nil => intro acc i; simp
  | cons x xs ih =>
    intro acc i
    simp [List.foldl_cons, ih, Nat.testBit_or, Bool.or_assoc]

/-- C9: get_mods_enum_from_list depends only on the membership set of
its input (hence is invariant under permutation and duplication), and
silently ignores strings outside the known code table; it is a total
function (it never raises). -/
theorem mods_enum_list_invariance :
    (∀ (l₁ l₂ : List String), (∀ s, s ∈ l₁ ↔ s ∈ l₂) →
      get_mods_enum_from_list l₁ = get_mods_enum_from_list l₂) ∧
    (∀ (l : List String) (s : String), MOD_STRING_TO_ENUM s = none →
      get_mods_enum_from_list (s :: l) = get_mods_enum_from_list l) := by
  constructor
  · intro l₁ l₂ hmem
    have hc : ∀ a : String, l₁.contains a = l₂.contains a := by
      intro a
      rw [Bool.eq_iff_iff, List.elem_iff, List.elem_iff]
      exact hmem a
    simp only [get_mods_enum_from_list]
    rw [hc "NC", hc "DT", hc "PF", hc "SD"]
    congr 1
    apply Nat.eq_of_testBit_eq
    intro i
    rw [foldl_or_testBit, foldl_or_testBit]
    rw [Bool.eq_iff_iff]
    simp only [Bool.or_eq_true, List.any_eq_true]
    constructor
    · rintro (h | ⟨s, hs, hp⟩)
      · exact Or.inl h
      · exact Or.inr ⟨s, (hmem s).1 hs, hp⟩
    · rintro (h | ⟨s, hs, hp⟩)
      · exact Or.inl h
      · exact Or.inr ⟨s, (hmem s).2 hs, hp⟩
  · intro l s hnone
    have hNC : s ≠ "NC" := fun h => by
      rw [h] at hnone; exact Option.noConfusion hnone
    have hDT : s ≠ "DT" := fun h => by
      rw [h] at hnone; exact Option.noConfusion hnone
    have hPF : s ≠ "PF" := fun h => by
      rw [h] at hnone; exact Option.noConfusion hnone
    have hSD : s ≠ "SD" := fun h => by
      rw [h] at hnone; exact Option.noConfusion hnone
    have hflag : ∀ t : String, s ≠ t →
        ((s :: l).contains t = l.contains t) := by
      intro t hst
      rw [Bool.eq_iff_iff, List.elem_iff, List.elem_iff,
        List.mem_cons]
      constructor
      · rintro (rfl | h)
        · exact absurd rfl hst
        · exact h
      · exact Or.inr
    simp only [get_mods_enum_from_list, hflag "NC" hNC, hflag "DT" hDT,
      hflag "PF" hPF, hflag "SD" hSD, List.foldl_cons]
    congr 1
    have hcontrib : modContribution (l.contains "NC") (l.contains "DT")
        (l.contains "PF") (l.contains "SD") s = 0 := by
      simp [modContribution, hNC, hDT, hPF, hSD, hnone]
    rw [hcontrib, Nat.zero_or]

/-- Witness for C9 at concrete inputs: duplication and an unknown code
leave the enum unchanged. -/
theorem mods_enum_list_invariance_witness :
    get_mods_enum_from_list ["HD", "HD"] = get_mods_enum_from_list ["HD"] ∧
    get_mods_enum_from_list ["ZZ", "HD"] = get_mods_enum_from_list ["HD"] :=
  ⟨mods_enum_list_invariance.1 ["HD", "HD"] ["HD"] (fun s => by simp),
   mods_enum_list_invariance.2 ["HD"] "ZZ" rfl⟩

/-! ## Claim C2 -/

/-- Candidate difficulties of the star fallback: a present, nonzero
difficulty rating (Python truthiness of api_stars at line 1153). -/
def isCand (b : Beatmap) : Prop :=
  ∃ r, b.difficulty_rating = some r ∧ r ≠ 0

/-- Star distance of a difficulty from the parsed base rating. -/
def candDist (base : ℚ) (b : Beatmap) : ℚ :=
  |b.difficulty_rating.getD 0 - base|

/-- Case analysis of one step of the closest-star scan. -/
lemma closestStep_cases (base : ℚ) (acc : Option (Beatmap × ℚ))
    (x : Beatmap) :
    (closestStep base acc x = acc ∧ ¬ isCand x) ∨
    (isCand x ∧
      ((acc = none ∧
          closestStep base acc x = some (x, candDist base x)) ∨
       (∃ b0 d0, acc = some (b0, d0) ∧
         ((candDist base x < d0 ∧
             closestStep base acc x = some (x, candDist base x)) ∨
          (¬ candDist base x < d0 ∧
             closestStep base acc x = some (b0, d0)))))) := by
  cases hx : x.difficulty_rating with
  | none =>
    left
    refine ⟨by simp [closestStep, hx], ?_⟩
    rintro ⟨r, hr, -⟩
    rw [hx] at hr
    exact Option.noConfusion hr
  | some r =>
    by_cases hr : r = 0
    · left
      refine ⟨by simp [closestStep, hx, hr], ?_⟩
      rintro ⟨r2, hr2, hne⟩
      rw [hx] at hr2
      exact hne ((Option.some.inj hr2).symm.trans hr)
    · right
      have hcand : isCand x := ⟨r, hx, hr⟩
      have hdist : candDist base x = |r - base| := by
        simp [candDist, hx]
      cases acc with
      | none =>
        refine ⟨hcand, Or.inl ⟨rfl, ?_⟩⟩
        simp [closestStep, hx, hr, hdist]
      | some p =>
        obtain ⟨b0, d0⟩ := p
        refine ⟨hcand, Or.inr ⟨b0, d0, rfl, ?_⟩⟩
        by_cases hlt : |r - base| < d0
        · refine Or.inl ⟨by rw [hdist]; exact hlt, ?_⟩
          simp [closestStep, hx, hr, hdist, hlt]
        · refine Or.inr ⟨by rw [hdist]; exact hlt, ?_⟩
          simp [closestStep, hx, hr, hdist, hlt]

/-- Full characterisation of the closest-star fold: it is none exactly
when the accumulator is empty and no candidate occurs, and a some result
carries the distance of its difficulty, comes from the accumulator or
from a candidate of the list, and is minimal among both. -/
lemma closest_fold_spec (base : ℚ) (l : List Beatmap) :
    ∀ (acc : Option (Beatmap × ℚ)),
      (∀ b0 d0, acc = some (b0, d0) → d0 = candDist base b0) →
      ((l.foldl (closestStep base) acc = none ↔
          (acc = none ∧ ∀ b ∈ l, ¬ isCand b)) ∧
       (∀ b d, l.foldl (closestStep base) acc = some (b, d) →
          d = candDist base b ∧
          (acc = some (b, d) ∨ (b ∈ l ∧ isCand b)) ∧
          (∀ b0 d0, acc = some (b0, d0) → d ≤ d0) ∧
          (∀ b2 ∈ l, isCand b2 → d ≤ candDist base b2))) := by
  induction l with
  | nil =>
    intro acc hinv
    constructor
    · simp
    · intro b d h
      simp only [List.foldl_nil] at h
      refine ⟨hinv b d h, Or.inl h, ?_, by simp⟩
      intro b0 d0 h0
      rw [h] at h0
      obtain ⟨-, rfl⟩ := Prod.mk.injEq .. ▸ Option.some.inj h0
      exact le_refl d
  | cons x xs ih =>
    intro acc hinv
    simp only [List.foldl_cons]
    rcases closestStep_cases base acc x with ⟨heq, hnc⟩ |
      ⟨hcx, hstep⟩
    · rw [heq]
      obtain ⟨ihn, ihs⟩ := ih acc hinv
      constructor
      · rw [ihn]
        constructor
        · rintro ⟨ha, hall⟩
          refine ⟨ha, ?_⟩
          intro b hb
          rcases List.mem_cons.mp hb with rfl | hb2
          · exact hnc
          · exact hall b hb2
        · rintro ⟨ha, hall⟩
          exact ⟨ha, fun b hb => hall b (List.mem_cons_of_mem x hb)⟩
      · intro b d h
        obtain ⟨hd, hprov, hmin0, hminl⟩ := ihs b d h
        refine ⟨hd, ?_, hmin0, ?_⟩
        · rcases hprov with h1 | ⟨hb, hc⟩
          · exact Or.inl h1
          · exact Or.inr ⟨List.mem_cons_of_mem x hb, hc⟩
        · intro b2 hb2 hc2
          rcases List.mem_cons.mp hb2 with rfl | hb3
          · exact absurd hc2 hnc
          · exact hminl b2 hb3 hc2
    · -- the step produced a some accumulator
      have hinv1 : ∀ b0 d0, closestStep base acc x = some (b0, d0) →
          d0 = candDist base b0 := by
        intro b0 d0 h0
        rcases hstep with ⟨-, hs⟩ | ⟨ba, da, hacc, hcase⟩
        · rw [hs] at h0
          obtain ⟨rfl, rfl⟩ := Prod.mk.injEq .. ▸ Option.some.inj h0
          rfl
        · rcases hcase with ⟨-, hs⟩ | ⟨-, hs⟩
          · rw [hs] at h0
            obtain ⟨rfl, rfl⟩ := Prod.mk.injEq .. ▸ Option.some.inj h0
            rfl
          · rw [hs] at h0
            obtain ⟨rfl, rfl⟩ := Prod.mk.injEq .. ▸ Option.some.inj h0
            exact hinv ba da hacc
      obtain ⟨ihn, ihs⟩ := ih (closestStep base acc x) hinv1
      have hsome : ∃ p, closestStep base acc x = some p := by
        rcases hstep with ⟨-, hs⟩ | ⟨ba, da, -, hcase⟩
        · exact ⟨_, hs⟩
        · rcases hcase with ⟨-, hs⟩ | ⟨-, hs⟩ <;> exact ⟨_, hs⟩
      constructor
      · constructor
        · intro h
          obtain ⟨h1, -⟩ := ihn.mp h
          obtain ⟨p, hp⟩ := hsome
          rw [hp] at h1
          exact Option.noConfusion h1
        · rintro ⟨-, hall⟩
          exact absurd hcx (hall x (List.mem_cons_self x xs))
      · intro b d h
        obtain ⟨hd, hprov, hmin1, hminl⟩ := ihs b d h
        refine ⟨hd, ?_, ?_, ?_⟩
        · -- provenance with respect to the original accumulator
          rcases hprov with h1 | ⟨hb, hc⟩
          · rcases hstep with ⟨hs0, hs⟩ | ⟨ba, da, hacc, hcase⟩
            · rw [hs] at h1
              obtain ⟨rfl, rfl⟩ := Prod.mk.injEq .. ▸ Option.some.inj h1
              exact Or.inr ⟨List.mem_cons_self x xs, hcx⟩
            · rcases hcase with ⟨-, hs⟩ | ⟨-, hs⟩
              · rw [hs] at h1
                obtain ⟨rfl, rfl⟩ :=
                  Prod.mk.injEq .. ▸ Option.some.inj h1
                exact Or.inr ⟨List.mem_cons_self x xs, hcx⟩
              · rw [hs] at h1
                obtain ⟨rfl, rfl⟩ :=
                  Prod.mk.injEq .. ▸ Option.some.inj h1
                exact Or.inl hacc
          · exact Or.inr ⟨List.mem_cons_of_mem x hb, hc⟩
        · -- minimality with respect to the original accumulator
          intro b0 d0 h0
          rcases hstep with ⟨hs0, -⟩ | ⟨ba, da, hacc, hcase⟩
          · rw [hs0] at h0
            exact Option.noConfusion h0
          · rw [hacc] at h0
            obtain ⟨rfl, rfl⟩ := Prod.mk.injEq .. ▸ Option.some.inj h0
            rcases hcase with ⟨hlt, hs⟩ | ⟨-, hs⟩
            · exact le_trans (hmin1 _ _ hs) (le_of_lt hlt)
            · exact hmin1 _ _ hs
        · -- minimality over the whole list
          intro b2 hb2 hc2
          rcases List.mem_cons.mp hb2 with rfl | hb3
          · rcases hstep with ⟨-, hs⟩ | ⟨ba, da, hacc, hcase⟩
            · exact hmin1 _ _ hs
            · rcases hcase with ⟨-, hs⟩ | ⟨hnlt, hs⟩
              · exact hmin1 _ _ hs
              · exact le_trans (hmin1 _ _ hs) (le_of_not_lt hnlt)
          · exact hminl b2 hb3 hc2

/-- C2 (amended): the resolution first takes the first exact
case-insensitive whitespace-stripped name match.  When none exists, the
nearest-star fallback is attempted ONLY when the star rating parsed from
the render description is strictly positive; it scans the difficulties
with a present nonzero rating, picks one at minimal absolute distance
from the parsed rating, and accepts it only when that distance is
strictly below the 0.1 tolerance. -/
theorem difficulty_resolution_spec (beatmaps : List Beatmap)
    (target : String) (base : ℚ) :
    (∀ b, beatmaps.find?
        (fun b0 => normName b0.version == normName target) = some b →
      resolveDifficulty beatmaps target base = some b) ∧
    (beatmaps.find?
        (fun b0 => normName b0.version == normName target) = none →
      ¬ base > 0 → resolveDifficulty beatmaps target base = none) ∧
    (beatmaps.find?
        (fun b0 => normName b0.version == normName target) = none →
      base > 0 →
      (∀ b, resolveDifficulty beatmaps target base = some b →
        b ∈ beatmaps ∧ isCand b ∧ candDist base b < 1/10 ∧
        ∀ b2 ∈ beatmaps, isCand b2 →
          candDist base b ≤ candDist base b2) ∧
      ((∃ b ∈ beatmaps, isCand b ∧ candDist base b < 1/10) →
        (resolveDifficulty beatmaps target base).isSome = true)) := by
  have hinv0 : ∀ (b0 : Beatmap) (d0 : ℚ),
      (none : Option (Beatmap × ℚ)) = some (b0, d0) →
      d0 = candDist base b0 := fun b0 d0 h => Option.noConfusion h
  obtain ⟨hnone, hsome⟩ := closest_fold_spec base beatmaps none hinv0
  refine ⟨?_, ?_, ?_⟩
  · intro b hfind
    unfold resolveDifficulty
    rw [hfind]
  · intro hfind hbase
    unfold resolveDifficulty
    rw [hfind, if_neg hbase]
  · intro hfind hbase
    constructor
    · intro b hres
      cases hfold : beatmaps.foldl (closestStep base) none with
      | none =>
        simp only [resolveDifficulty, hfind, if_pos hbase, hfold] at hres
        exact Option.noConfusion hres
      | some p =>
        obtain ⟨b1, dmin⟩ := p
        simp only [resolveDifficulty, hfind, if_pos hbase, hfold] at hres
        by_cases hlt : dmin < 1/10
        · rw [if_pos hlt] at hres
          obtain rfl : b1 = b := Option.some.inj hres
          obtain ⟨hd, hprov, -, hminl⟩ := hsome b1 dmin hfold
          rcases hprov with h1 | ⟨hb, hc⟩
          · exact Option.noConfusion h1
          · exact ⟨hb, hc, hd ▸ hlt, fun b2 hb2 hc2 =>
              hd ▸ hminl b2 hb2 hc2⟩
        · rw [if_neg hlt] at hres
          exact Option.noConfusion hres
    · rintro ⟨b, hb, hc, hdist⟩
      cases hfold : beatmaps.foldl (closestStep base) none with
      | none =>
        obtain ⟨-, hall⟩ := hnone.mp hfold
        exact absurd hc (hall b hb)
      | some p =>
        obtain ⟨b1, dmin⟩ := p
        obtain ⟨-, -, -, hminl⟩ := hsome b1 dmin hfold
        have hlt : dmin < 1/10 := lt_of_le_of_lt (hminl b hb hc) hdist
        simp only [resolveDifficulty, hfind, if_pos hbase, hfold,
          if_pos hlt, Option.isSome_some]

/-- The difficulty list of the C2 counterexample: no exact name match
for the target, and a difficulty whose star rating (0.05) lies within
0.1 of the parsed rating 0. -/
def bmLowStar : Beatmap := ⟨"Hard", 7, some 100, some (1/20)⟩

/-- Counterexample to C2 as stated: with no exact match, a difficulty
within the 0.1 tolerance of the parsed star rating exists (distance
0.05), yet resolution returns nothing, because the fallback is guarded
by base_stars_from_desc > 0 (source line 1147) and the parsed rating
here is 0. -/
theorem difficulty_resolution_counterexample :
    resolveDifficulty [bmLowStar] "Insane" 0 = none ∧
    bmLowStar.difficulty_rating = some (1/20) ∧ (1/20 : ℚ) ≠ 0 ∧
    candDist 0 bmLowStar < 1/10 := by
  refine ⟨?_, rfl, by norm_num, ?_⟩
  · simp only [resolveDifficulty]
    norm_num
    rfl
  · simp only [candDist, bmLowStar, Option.getD_some]
    rw [sub_zero, abs_of_pos (by norm_num)]
    norm_num

/-- Witness for the amended C2: the exact-match clause applied at a
concrete list whose second entry matches the target up to case and
whitespace. -/
theorem difficulty_resolution_spec_witness :
    resolveDifficulty [bmLowStar, bmSample] " insane " 9 = some bmSample :=
  (difficulty_resolution_spec [bmLowStar, bmSample] " insane " 9).1
    bmSample rfl

/-! ## Claim C7 -/

/-- C7: for every background of positive size the produced thumbnail
base is exactly 1920 x 1080; the scaled image covers the target on both
axes, equals it exactly on the binding axis, and the crop is centred on
the other axis; the avatar is pasted at ((1920-450)/2, (1080-450)/2) =
(735, 315), so its centre (960, 540) is the canvas centre; the left text
block ends 30 pixels left of the avatar and the right block starts 30
pixels right of it, both vertically referenced to the avatar position
(its top plus a quarter of its size, 427.5). -/
theorem canvas_geometry (w h : Nat) (hw : 0 < w) (hh : 0 < h) :
    thumbBaseSize w h = (1920, 1080) ∧
    1920 ≤ (scaleAndCrop w h).new_width ∧
    1080 ≤ (scaleAndCrop w h).new_height ∧
    ((scaleAndCrop w h).new_width = 1920 ∨
      (scaleAndCrop w h).new_height = 1080) ∧
    (scaleAndCrop w h).x_crop =
      ((scaleAndCrop w h).new_width - 1920) / 2 ∧
    (scaleAndCrop w h).y_crop =
      ((scaleAndCrop w h).new_height - 1080) / 2 ∧
    avatar_pos_x = 735 ∧ avatar_pos_y = 315 ∧
    avatar_pos_x + avatar_size / 2 = target_width / 2 ∧
    avatar_pos_y + avatar_size / 2 = target_height / 2 ∧
    left_x_end = avatar_pos_x - 30 ∧
    pp_x = avatar_pos_x + avatar_size + 30 ∧
    side_text_vertical_center_y = 855 / 2 := by
  have hwq : (0 : ℚ) < (w : ℚ) := by exact_mod_cast hw
  have hhq : (0 : ℚ) < (h : ℚ) := by exact_mod_cast hh
  have hsize : thumbBaseSize w h = (1920, 1080) := by
    simp only [thumbBaseSize, cropSize, target_width, target_height,
      Prod.mk.injEq]
    omega
  have hstat : avatar_pos_x = 735 ∧ avatar_pos_y = 315 ∧
      avatar_pos_x + avatar_size / 2 = target_width / 2 ∧
      avatar_pos_y + avatar_size / 2 = target_height / 2 ∧
      left_x_end = avatar_pos_x - 30 ∧
      pp_x = avatar_pos_x + avatar_size + 30 ∧
      side_text_vertical_center_y = 855 / 2 := by
    refine ⟨rfl, rfl, rfl, rfl, rfl, rfl, ?_⟩
    norm_num [side_text_vertical_center_y, avatar_pos_y, avatar_size,
      target_height]
  by_cases hb : (w : ℚ) / h > (target_width : ℚ) / target_height
  · have heq : scaleAndCrop w h =
        ⟨(Int.floor ((w : ℚ) * ((target_height : ℚ) / h))).toNat,
          target_height,
          ((Int.floor ((w : ℚ) * ((target_height : ℚ) / h))).toNat -
            target_width) / 2, 0⟩ := by
      simp only [scaleAndCrop, if_pos hb]
    have hq : (1920 : ℚ) ≤ (w : ℚ) * ((target_height : ℚ) / h) := by
      have h1 : ((target_width : Nat) : ℚ) / ((target_height : Nat) : ℚ) <
          (w : ℚ) / h := hb
      have h2 : ((1920 : ℚ)) / 1080 < (w : ℚ) / h := by
        simpa [target_width, target_height] using h1
      have h3 : (1920 : ℚ) < (w : ℚ) / h * 1080 := by
        have := mul_lt_mul_of_pos_right h2 (show (0:ℚ) < 1080 by norm_num)
        calc (1920 : ℚ) = 1920 / 1080 * 1080 := by norm_num
          _ < (w : ℚ) / h * 1080 := this
      have h4 : (w : ℚ) / h * 1080 = (w : ℚ) * ((1080 : ℚ) / h) := by
        ring
      refine le_of_lt ?_
      calc (1920 : ℚ) < (w : ℚ) / h * 1080 := h3
        _ = (w : ℚ) * ((target_height : ℚ) / h) := by
          rw [h4]; norm_num [target_height]
    have hfloor : (1920 : ℤ) ≤ Int.floor ((w : ℚ) *
        ((target_height : ℚ) / h)) := by
      rw [Int.le_floor]
      exact_mod_cast hq
    have hnat : 1920 ≤
        (Int.floor ((w : ℚ) * ((target_height : ℚ) / h))).toNat := by
      have := Int.toNat_le_toNat hfloor
      simpa using this
    rw [heq]
    refine ⟨hsize, hnat, by norm_num [target_height], Or.inr rfl, rfl,
      by norm_num [target_height], hstat⟩
  · have heq : scaleAndCrop w h =
        ⟨target_width,
          (Int.floor ((h : ℚ) * ((target_width : ℚ) / w))).toNat, 0,
          ((Int.floor ((h : ℚ) * ((target_width : ℚ) / w))).toNat -
            target_height) / 2⟩ := by
      simp only [scaleAndCrop, if_neg hb]
    have hq : (1080 : ℚ) ≤ (h : ℚ) * ((target_width : ℚ) / w) := by
      have h1 : (w : ℚ) / h ≤ ((target_width : Nat) : ℚ) /
          ((target_height : Nat) : ℚ) := le_of_not_lt hb
      have h2 : (w : ℚ) / h ≤ (1920 : ℚ) / 1080 := by
        simpa [target_width, target_height] using h1
      have h3 : (w : ℚ) * 1080 ≤ 1920 * (h : ℚ) := by
        rw [div_le_div_iff₀ hhq (by norm_num : (0:ℚ) < 1080)] at h2
        linarith
      have h4 : (1080 : ℚ) * (w : ℚ) ≤ (h : ℚ) * 1920 := by linarith
      have h5 : (1080 : ℚ) ≤ (h : ℚ) * 1920 / w := by
        rw [le_div_iff₀ hwq]
        linarith
      calc (1080 : ℚ) ≤ (h : ℚ) * 1920 / w := h5
        _ = (h : ℚ) * ((target_width : ℚ) / w) := by
          norm_num [target_width]
          ring
    have hfloor : (1080 : ℤ) ≤ Int.floor ((h : ℚ) *
        ((target_width : ℚ) / w)) := by
      rw [Int.le_floor]
      exact_mod_cast hq
    have hnat : 1080 ≤
        (Int.floor ((h : ℚ) * ((target_width : ℚ) / w))).toNat := by
      have := Int.toNat_le_toNat hfloor
      simpa using this
    rw [heq]
    refine ⟨hsize, by norm_num [target_width], hnat, Or.inl rfl, ?_, rfl,
      hstat⟩
    norm_num [target_width]

/-- Witness for C7 at a concrete background size. -/
theorem canvas_geometry_witness :
    thumbBaseSize 1000 600 = (1920, 1080) :=
  (canvas_geometry 1000 600 (by decide) (by decide)).1

/-! ## Claim C10 -/

/-- Occurrence of a pattern at the head of the text: one of the given
prefixes followed immediately by at least one word character. -/
def PatternAt (ps : List String) (cs : List Char) : Prop :=
  ∃ p ∈ ps, ∃ c post, c ≠ [] ∧ (∀ ch ∈ c, isWordChar ch = true) ∧
    cs = p.data ++ c ++ post

lemma isPrefixOf_iff_append (l₁ l₂ : List Char) :
    l₁.isPrefixOf l₂ = true ↔ ∃ t, l₁ ++ t = l₂ := by
  induction l₁ generalizing l₂ with
  | nil => simp [List.isPrefixOf]
  | cons a as ih =>
    cases l₂ with
    | nil => simp [List.isPrefixOf]
    | cons b bs =>
      simp only [List.isPrefixOf, Bool.and_eq_true, beq_iff_eq, ih,
        List.cons_append, List.cons.injEq]
      constructor
      · rintro ⟨rfl, t, ht⟩
        exact ⟨t, rfl, ht⟩
      · rintro ⟨t, rfl, ht⟩
        exact ⟨rfl, t, ht⟩

lemma dropWhile_take_one_false (q : Char → Bool) :
    ∀ (l : List Char), ∀ ch ∈ (l.dropWhile q).take 1, q ch = false := by
  intro l
  induction l with
  | nil => simp
  | cons x xs ih =>
    by_cases hx : q x = true
    · simpa [List.dropWhile_cons, hx] using ih
    · have hx2 : q x = false := by revert hx; cases q x <;> simp
      intro ch hch
      rw [List.dropWhile_cons, if_neg (by simp [hx2])] at hch
      simp only [List.take, List.mem_singleton] at hch
      rw [hch]
      exact hx2

/-- Soundness of one alternative: a match yields the prefix, a maximal
non-empty word-character run, and the rest. -/
lemma matchPrefixAt_sound (p : String) (cs : List Char) (code : String)
    (h : matchPrefixAt p cs = some code) :
    code.data ≠ [] ∧ (∀ ch ∈ code.data, isWordChar ch = true) ∧
    ∃ post, cs = p.data ++ code.data ++ post ∧
      ∀ ch ∈ post.take 1, isWordChar ch = false := by
  unfold matchPrefixAt at h
  by_cases hp : p.data.isPrefixOf cs = true
  · rw [if_pos hp] at h
    by_cases hwe : (cs.drop p.data.length).takeWhile isWordChar = []
    · rw [if_pos hwe] at h
      exact Option.noConfusion h
    · rw [if_neg hwe] at h
      obtain rfl : String.mk ((cs.drop p.data.length).takeWhile isWordChar)
          = code := Option.some.inj h
      obtain ⟨t, ht⟩ := (isPrefixOf_iff_append p.data cs).mp hp
      have hdrop : cs.drop p.data.length = t := by
        rw [← ht, List.drop_left]
      refine ⟨hwe, ?_, ?_⟩
      · intro ch hch
        exact List.mem_takeWhile_imp hch
      · refine ⟨(cs.drop p.data.length).dropWhile isWordChar, ?_, ?_⟩
        · conv_lhs => rw [← ht]
          rw [hdrop]
          rw [List.append_assoc, ← List.takeWhile_append_dropWhile
            (p := isWordChar) (l := t), ← hdrop]
          simp [List.takeWhile_append_dropWhile]
        · exact dropWhile_take_one_false isWordChar _
  · rw [if_neg hp] at h
    exact Option.noConfusion h

/-- Completeness of one alternative: a decomposition at the head makes
the alternative match. -/
lemma matchPrefixAt_complete (p : String) (cs : List Char)
    (c post : List Char) (hc : c ≠ [])
    (hw : ∀ ch ∈ c, isWordChar ch = true)
    (hcs : cs = p.data ++ c ++ post) :
    matchPrefixAt p cs ≠ none := by
  have hp : p.data.isPrefixOf cs = true := by
    rw [isPrefixOf_iff_append, hcs, List.append_assoc]
    exact ⟨c ++ post, rfl⟩
  unfold matchPrefixAt
  rw [if_pos hp]
  have hdrop : cs.drop p.data.length = c ++ post := by
    rw [hcs, List.append_assoc, List.drop_left]
  cases c with
  | nil => exact absurd rfl hc
  | cons ch rest =>
    have hch : isWordChar ch = true := hw ch (List.mem_cons_self ch rest)
    rw [hdrop]
    rw [List.cons_append, List.takeWhile_cons_of_pos hch]
    simp

lemma matchAt_nil (ps : List String) : matchAt ps [] = none := by
  rw [matchAt, List.findSome?_eq_none_iff]
  intro p _
  unfold matchPrefixAt
  by_cases hp : p.data.isPrefixOf ([] : List Char) = true
  · rw [if_pos hp]
    simp
  · rw [if_neg hp]

/-- A position admits a pattern exactly when some alternative matches
there. -/
lemma patternAt_iff_matchAt (ps : List String) (cs : List Char) :
    PatternAt ps cs ↔ matchAt ps cs ≠ none := by
  constructor
  · rintro ⟨p, hp, c, post, hc, hw, hcs⟩
    intro hnone
    rw [matchAt, List.findSome?_eq_none_iff] at hnone
    exact matchPrefixAt_complete p cs c post hc hw hcs (hnone p hp)
  · intro hne
    obtain ⟨code, hcode⟩ := Option.ne_none_iff_exists'.mp hne
    obtain ⟨p, hp, hm⟩ := List.exists_of_findSome?_eq_some hcode
    obtain ⟨hne2, hw, post, hcs, -⟩ := matchPrefixAt_sound p cs code hm
    exact ⟨p, hp, code.data, post, hne2, hw, hcs⟩

/-- A successful leftmost search happened at some position before which
no alternative matches. -/
lemma searchFrom_eq_some_spec (ps : List String) :
    ∀ (cs : List Char) (code : String), searchFrom ps cs = some code →
      ∃ i, matchAt ps (cs.drop i) = some code ∧
        ∀ j < i, matchAt ps (cs.drop j) = none := by
  intro cs
  induction cs with
  | nil => intro code h; exact Option.noConfusion h
  | cons c rest ih =>
    intro code h
    unfold searchFrom at h
    cases hm : matchAt ps (c :: rest) with
    | some r =>
      rw [hm] at h
      obtain rfl : r = code := Option.some.inj h
      exact ⟨0, by simpa using hm, fun j hj => absurd hj (Nat.not_lt_zero j)⟩
    | none =>
      rw [hm] at h
      obtain ⟨i, hi, hj⟩ := ih code h
      refine ⟨i + 1, by simpa using hi, ?_⟩
      intro j hj2
      cases j with
      | zero => simpa using hm
      | succ j2 =>
        have := hj j2 (Nat.lt_of_succ_lt_succ hj2)
        simpa using this

/-- A match at any position makes the search succeed. -/
lemma searchFrom_ne_none (ps : List String) :
    ∀ (cs : List Char) (i : Nat), matchAt ps (cs.drop i) ≠ none →
      searchFrom ps cs ≠ none := by
  intro cs
  induction cs with
  | nil =>
    intro i h
    rw [List.drop_nil] at h
    exact absurd (matchAt_nil ps) h
  | cons c rest ih =>
    intro i h
    unfold searchFrom
    cases hm : matchAt ps (c :: rest) with
    | some r => simp
    | none =>
      cases i with
      | zero => exact absurd hm (by simpa using h)
      | succ j =>
        simpa using ih j (by simpa using h)

/-- The claimed containment property is exactly a pattern at some
position. -/
lemma hasPattern_iff_exists (ps : List String) (url : String) :
    HasOrdrPattern ps url ↔ ∃ i, PatternAt ps (url.data.drop i) := by
  constructor
  · rintro ⟨pre, p, c, post, hp, hc, hw, hurl⟩
    refine ⟨pre.length, p, hp, c, post, hc, hw, ?_⟩
    rw [hurl]
    simp [List.append_assoc, List.drop_left]
  · rintro ⟨i, p, hp, c, post, hc, hw, hdrop⟩
    refine ⟨url.data.take i, p, c, post, hp, hc, hw, ?_⟩
    calc url.data = url.data.take i ++ url.data.drop i :=
        (List.take_append_drop i url.data).symm
      _ = url.data.take i ++ (p.data ++ c ++ post) := by rw [hdrop]
      _ = url.data.take i ++ p.data ++ c ++ post := by
          simp [List.append_assoc]

/-- Containment of a pattern is equivalent to success of the search. -/
lemma hasPattern_iff_search (ps : List String) (url : String) :
    HasOrdrPattern ps url ↔ searchFrom ps url.data ≠ none := by
  rw [hasPattern_iff_exists]
  constructor
  · rintro ⟨i, hpa⟩
    exact searchFrom_ne_none ps url.data i
      ((patternAt_iff_matchAt ps _).mp hpa)
  · intro hne
    obtain ⟨code, hcode⟩ := Option.ne_none_iff_exists'.mp hne
    obtain ⟨i, hi, -⟩ := searchFrom_eq_some_spec ps url.data code hcode
    exact ⟨i, (patternAt_iff_matchAt ps _).mpr (by rw [hi]; simp)⟩

/-- C10 (amended): extract_ordr_code succeeds exactly on URLs containing
one of the FOUR patterns the regex accepts — link.issou.best/,
ordr.issou.best/renders/, ordr.issou.best/render/ (the alternation
renders? also admits the singular form) or ordr.issou.best/watch/ —
followed by at least one word character; the returned code is the
maximal word-character run of the first such occurrence, and it is
non-empty and purely word characters.  On every other string it raises
the unrecognised-format ValueError, and create_thumbnail then never
consults the metadata-fetch oracle, so it fails before any network
access. -/
theorem extract_code_spec (url : String) :
    (HasOrdrPattern ordrPrefixes url →
      ∃ code, extract_ordr_code url = Except.ok code ∧
        code.data ≠ [] ∧ (∀ ch ∈ code.data, isWordChar ch = true) ∧
        ∃ i p post, p ∈ ordrPrefixes ∧
          url.data.drop i = p.data ++ code.data ++ post ∧
          (∀ ch ∈ post.take 1, isWordChar ch = false) ∧
          (∀ j < i, ¬ PatternAt ordrPrefixes (url.data.drop j))) ∧
    (¬ HasOrdrPattern ordrPrefixes url →
      extract_ordr_code url = Except.error
        ("Invalid or unrecognized ORDR URL format: " ++ url)) ∧
    (∀ (μ : Type) (f g : String → μ), ¬ HasOrdrPattern ordrPrefixes url →
      createThumbnailStart url f = createThumbnailStart url g) := by
  have herr : ¬ HasOrdrPattern ordrPrefixes url →
      extract_ordr_code url = Except.error
        ("Invalid or unrecognized ORDR URL format: " ++ url) := by
    intro hnp
    have hs : searchFrom ordrPrefixes url.data = none := by
      by_contra hne
      exact hnp ((hasPattern_iff_search ordrPrefixes url).mpr hne)
    unfold extract_ordr_code
    rw [hs]
  refine ⟨?_, herr, ?_⟩
  · intro hp
    have hne := (hasPattern_iff_search ordrPrefixes url).mp hp
    obtain ⟨code, hcode⟩ := Option.ne_none_iff_exists'.mp hne
    refine ⟨code, ?_, ?_⟩
    · unfold extract_ordr_code
      rw [hcode]
    · obtain ⟨i, hi, hbefore⟩ :=
        searchFrom_eq_some_spec ordrPrefixes url.data code hcode
      obtain ⟨p, hpmem, hm⟩ := List.exists_of_findSome?_eq_some hi
      obtain ⟨hne2, hw, post, hcs, hmax⟩ :=
        matchPrefixAt_sound p (url.data.drop i) code hm
      refine ⟨hne2, hw, i, p, post, hpmem, hcs, hmax, ?_⟩
      intro j hj
      rw [patternAt_iff_matchAt]
      intro hcon
      exact hcon (hbefore j hj)
  · intro μ f g hnp
    unfold createThumbnailStart
    by_cases hu : url = ""
    · rw [if_pos hu, if_pos hu]
    · rw [if_neg hu, if_neg hu, herr hnp]

/-- The URL of the C10 counterexample: the singular render path. -/
def renderUrl : String := "https://ordr.issou.best/render/abc123"

/-- Counterexample to C10 as stated: this URL contains none of the three
listed patterns, yet extract_ordr_code returns the code abc123 instead
of raising, because the regex alternation renders? also accepts the
singular ordr.issou.best/render/. -/
theorem extract_code_counterexample :
    extract_ordr_code renderUrl = Except.ok "abc123" ∧
    ¬ HasOrdrPattern claimedPrefixes renderUrl := by
  refine ⟨rfl, ?_⟩
  rw [hasPattern_iff_search]
  simp only [ne_eq, not_not]
  rfl

/-- Witness for the amended C10 at a concrete unrecognised URL. -/
theorem extract_code_spec_witness :
    extract_ordr_code "https://example.com/a" = Except.error
      ("Invalid or unrecognized ORDR URL format: https://example.com/a") :=
  (extract_code_spec "https://example.com/a").2.1
    (by rw [hasPattern_iff_search]; simp only [ne_eq, not_not]; rfl)

end OsuThumb
